import Mathlib

/-!
Verification of the RAG pipeline of `ai_agent_fastapi_groq_streamlit`.

The definitions below are shallow embeddings of the Python source:
  * `pySplit`, `chunk_text`      — `utils_rag.py` (`text.split()` and `chunk_text`)
  * `RAGPipeline`, `prepare_doc`, `retrieve_similar_chunks`, `query_doc`
                                  — `rag_engine.py`
  * `os_path_join`, `upload_file_path` — `backend.py` upload endpoint

External collaborators (sentence-transformers' `encode`, PyMuPDF extraction)
are modelled as explicit function/value parameters; scikit-learn's
`NearestNeighbors` (brute-force cosine metric) is modelled from its documented
contract (`kneighbors` returns the `n_neighbors` nearest rows in ascending
distance order and rejects `n_neighbors <= 0` or `n_neighbors` larger than the
fitted sample count).
-/

namespace AiAgentRag

/-! ## Python `str.split()` (whitespace splitting, empty pieces dropped) -/

/-- The pieces of a character list cut at every whitespace character
(empty pieces kept, as `List.splitOnP` does). -/
def wordsOfData (l : List Char) : List (List Char) :=
  (l.splitOnP fun c => c.isWhitespace).filter fun w => !w.isEmpty

/-- Embedding of Python `s.split()`: maximal runs of non-whitespace
characters, in order; never produces an empty word. -/
def pySplit (s : String) : List String :=
  (wordsOfData s.data).map fun w => String.mk w

/-- Embedding of Python `" ".join(ws)`. -/
def joinWords (ws : List String) : String := String.intercalate " " ws

/-! ## `chunk_text` (`utils_rag.py`, lines 25-42)

Python loop: append each word to `current_chunk`; once
`len(current_chunk) >= max_length`, emit `" ".join(current_chunk)` and reset;
after the loop emit any non-empty remainder. -/

def chunkWordsAux (max_length : ℕ) : List String → List String → List String
  | acc, [] => if acc.isEmpty then [] else [joinWords acc]
  | acc, w :: ws =>
    if max_length ≤ (acc ++ [w]).length then
      joinWords (acc ++ [w]) :: chunkWordsAux max_length [] ws
    else
      chunkWordsAux max_length (acc ++ [w]) ws

/-- Embedding of `chunk_text(text, max_length=500)`. -/
def chunk_text (text : String) (max_length : ℕ := 500) : List String :=
  chunkWordsAux max_length [] (pySplit text)

/-- The same grouping loop at the word-list level (before `" ".join`);
used to reason about `chunkWordsAux`. -/
def wordChunksAux (max_length : ℕ) : List String → List String → List (List String)
  | acc, [] => if acc.isEmpty then [] else [acc]
  | acc, w :: ws =>
    if max_length ≤ (acc ++ [w]).length then
      (acc ++ [w]) :: wordChunksAux max_length [] ws
    else
      wordChunksAux max_length (acc ++ [w]) ws

/-! ## `rag_engine.py` : the `RAGPipeline` class

The embedding model (`sentence_transformers`) is external: `prepare_doc` takes
the batch encoder as a parameter `encode` (`none` models `encode` raising,
`some` its returned matrix), and `retrieve_similar_chunks`/`query_doc` take a
single-string encoder `encode1` (the one row of `encode([query])`).  PDF
extraction (`fitz`) is likewise external: `prepare_doc` receives the extraction
outcome (`none` models `fitz` raising). -/

/-- The error kinds raised by `rag_engine.py` and by the scikit-learn calls it
makes: `extractionError` (fitz raised), `extractionEmpty` (ValueError, no text
extracted), `noChunks` (ValueError, no chunks), `embeddingFailed` (`encode`
raised), `embeddingEmpty` (RuntimeError, empty embedding matrix),
`notPrepared` (RuntimeError, pipeline not prepared), `invalidInput`
(scikit-learn ValueError for a non-positive `n_neighbors`, or `n_neighbors`
exceeding the fitted sample count), `indexError` (Python IndexError). -/
inductive RagError
  | extractionError
  | extractionEmpty
  | noChunks
  | embeddingFailed
  | embeddingEmpty
  | notPrepared
  | invalidInput
  | indexError
  deriving DecidableEq

/-- The mutable state of a `RAGPipeline` instance.  `nn_model` holds the
matrix the `NearestNeighbors` structure was fitted on (`None` before any
fit), `embeddings` the stored (normalized) matrix, `text_chunks` the chunk
list. -/
structure RAGPipeline where
  text_chunks : List String
  nn_model : Option (List (List ℝ))
  embeddings : Option (List (List ℝ))
  embedding_dim : Option ℕ

/-- `RAGPipeline.__init__`. -/
def initPipeline : RAGPipeline :=
  { text_chunks := [], nn_model := none, embeddings := none,
    embedding_dim := none }

/-- `np.linalg.norm(v)`: the L2 norm, the square root of the sum of squares. -/
noncomputable def l2norm (v : List ℝ) : ℝ :=
  Real.sqrt (v.map fun x => x ^ 2).sum

/-- One row of the normalization in `prepare_doc` / `retrieve_similar_chunks`:
`norms[norms == 0] = 1.0; v / norms` — divide by the L2 norm, or by 1 when the
norm is exactly zero. -/
noncomputable def normalizeRow (v : List ℝ) : List ℝ :=
  v.map fun x => x / (if l2norm v = 0 then 1 else l2norm v)

/-- Dot product of two vectors (rows as lists). -/
noncomputable def dotProd (u v : List ℝ) : ℝ :=
  (List.zipWith (fun a b => a * b) u v).sum

/-- scikit-learn's cosine distance: `1 - u·v / (‖u‖ ‖v‖)`. -/
noncomputable def cosDist (u v : List ℝ) : ℝ :=
  1 - dotProd u v / (l2norm u * l2norm v)

/-- Ranking of row indices by distance, ties broken by the lower index (the
deterministic order a brute-force argsort produces). -/
def distRank (d : ℕ → ℝ) (i j : ℕ) : Prop :=
  d i < d j ∨ (d i = d j ∧ i ≤ j)

noncomputable instance distRank.instDecidableRel (d : ℕ → ℝ) :
    DecidableRel (distRank d) :=
  fun _ _ => inferInstanceAs (Decidable (_ ∨ _))

/-- All row indices `0, …, N-1` sorted by ascending distance to the query. -/
noncomputable def argsortDist (d : ℕ → ℝ) (N : ℕ) : List ℕ :=
  List.insertionSort (distRank d) (List.range N)

/-- Modelled from scikit-learn's documented contract:
`NearestNeighbors.kneighbors` on a brute-force cosine index of `nSamples` rows
returns the `k` nearest row indices in ascending distance order, and raises a
ValueError when `n_neighbors <= 0` or `n_neighbors > n_samples_fit`. -/
noncomputable def kneighborsIdx (d : ℕ → ℝ) (nSamples : ℕ) (k : ℤ) :
    Except RagError (List ℕ) :=
  if k ≤ 0 then .error .invalidInput
  else if (nSamples : ℤ) < k then .error .invalidInput
  else .ok ((argsortDist d nSamples).take k.toNat)

/-- `RAGPipeline.prepare_doc` (`rag_engine.py`, lines 20-51).  Returns the
error raised (if any) together with the state of the instance afterwards:
Python mutates `self` in place, so the fields assigned before the failing
statement keep their new values. -/
noncomputable def prepare_doc (encode : List String → Option (List (List ℝ)))
    (extracted : Option String) (s : RAGPipeline) :
    Option RagError × RAGPipeline :=
  match extracted with
  | none => (some .extractionError, s)
  | some raw_text =>
    if raw_text.data.all (fun c => c.isWhitespace) then
      (some .extractionEmpty, s)
    else
      let chunks := chunk_text raw_text 500
      let s1 : RAGPipeline := { s with text_chunks := chunks }
      if chunks.isEmpty then (some .noChunks, s1)
      else
        match encode chunks with
        | none => (some .embeddingFailed, s1)
        | some emb =>
          if emb.isEmpty then
            (some .embeddingEmpty, { s1 with embeddings := some emb })
          else
            let normed := emb.map normalizeRow
            (none, { s1 with
                       embeddings := some normed,
                       embedding_dim := some (normed.headD []).length,
                       nn_model := some normed })

/-- `RAGPipeline.retrieve_similar_chunks` (`rag_engine.py`, lines 53-68). -/
noncomputable def retrieve_similar_chunks (encode1 : String → List ℝ)
    (s : RAGPipeline) (query : String) (top_k : ℤ) :
    Except RagError (List String) :=
  match s.nn_model, s.embeddings with
  | some fitted, some _ =>
    if s.text_chunks.isEmpty then .error .notPrepared
    else
      let q := normalizeRow (encode1 query)
      let k : ℤ := min top_k (s.text_chunks.length : ℤ)
      match kneighborsIdx (fun i => cosDist q (fitted.getD i [])) fitted.length k with
      | .error e => .error e
      | .ok idxs =>
        if idxs.all (fun i => i < s.text_chunks.length) then
          .ok (idxs.map fun i => s.text_chunks.getD i "")
        else .error .indexError
  | _, _ => .error .notPrepared

/-- `RAGPipeline.query_doc` (`rag_engine.py`, lines 70-77). -/
noncomputable def query_doc (encode1 : String → List ℝ) (s : RAGPipeline)
    (question : String) : Except RagError String :=
  match retrieve_similar_chunks encode1 s question 3 with
  | .error e => .error e
  | .ok chunks =>
    let context := String.intercalate "\n\n" chunks
    .ok ("Answer the following question using the context. If the answer is not in the context, say \x27I don\x27t know\x27:\n\nContext:\n"
      ++ context ++ "\n\nQuestion: " ++ question)

/-! ## `backend.py` : the upload endpoint -/

def UPLOAD_FOLDER : String := "./data/uploads"

/-- POSIX `os.path.join(a, b)`: an absolute `b` (first character `/`)
replaces `a`; otherwise the parts are joined with `/` unless `a` is empty or
already ends in `/`.  The prefix/suffix tests are expressed on the character
list (for a one-character separator they coincide with
`startswith`/`endswith`). -/
def os_path_join (a b : String) : String :=
  if b.data.head? == some '/' then b
  else if a.data.isEmpty || (a.data.getLast? == some '/') then a ++ b
  else a ++ "/" ++ b

/-- The two uses `upload_file` makes of the computed `file_path`: the path the
uploaded bytes are written to, and the argument handed to
`rag.prepare_doc`. -/
structure UploadCall where
  saved_path : String
  prepare_doc_arg : String

/-- `upload_file` (`backend.py`, lines 121-139): `file_path =
os.path.join(UPLOAD_FOLDER, file.filename)` with the client-supplied filename
used verbatim, written to and passed to `prepare_doc` unchanged. -/
def upload_file (filename : String) : UploadCall :=
  let file_path := os_path_join UPLOAD_FOLDER filename
  { saved_path := file_path, prepare_doc_arg := file_path }

/-! ## Call sequences on one pipeline instance -/

/-- The external inputs of one `prepare_doc` call: the batch encoder's
behaviour on that call and the PDF extraction outcome. -/
structure PrepareAttempt where
  encode : List String → Option (List (List ℝ))
  extracted : Option String

/-- Running a sequence of `prepare_doc` calls on an instance; the state each
call leaves behind feeds the next call. -/
noncomputable def runPrepares : List PrepareAttempt → RAGPipeline → RAGPipeline
  | [], s => s
  | a :: as, s => runPrepares as (prepare_doc a.encode a.extracted s).2

/-- Every `prepare_doc` call in the sequence raised an error: no call ever
succeeded. -/
inductive AllPreparesFailed : List PrepareAttempt → RAGPipeline → Prop
  | nil (s : RAGPipeline) : AllPreparesFailed [] s
  | cons (a : PrepareAttempt) (as : List PrepareAttempt) (s : RAGPipeline) :
      (prepare_doc a.encode a.extracted s).1 ≠ none →
      AllPreparesFailed as (prepare_doc a.encode a.extracted s).2 →
      AllPreparesFailed (a :: as) s

/-- A fitted index: `fit` has stored a matrix with one row per held passage
and at least one passage is held. -/
def Fitted (s : RAGPipeline) : Prop :=
  ∃ fitted, s.nn_model = some fitted ∧ s.embeddings ≠ none ∧
    fitted.length = s.text_chunks.length ∧ s.text_chunks ≠ []

/-- A concrete fitted two-passage pipeline state (embeddings already unit
vectors), used to exercise the retrieval theorems. -/
def fittedExample : RAGPipeline :=
  { text_chunks := ["a", "b"],
    nn_model := some [[(1 : ℝ), 0], [0, 1]],
    embeddings := some [[(1 : ℝ), 0], [0, 1]],
    embedding_dim := some 2 }

theorem chunkWordsAux_eq_map (m : ℕ) :
    ∀ acc ws, chunkWordsAux m acc ws = (wordChunksAux m acc ws).map joinWords := by
  intro acc ws
  induction ws generalizing acc with
  | nil =>
    by_cases h : acc.isEmpty <;> simp [chunkWordsAux, wordChunksAux, h]
  | cons w ws ih =>
    by_cases h : m ≤ acc.length + 1 <;>
      simp [chunkWordsAux, wordChunksAux, h, ih]

/-! ## Structural facts about the word-level chunk loop -/

theorem wordChunksAux_flatten (m : ℕ) :
    ∀ acc ws, (wordChunksAux m acc ws).flatten = acc ++ ws := by
  intro acc ws
  induction ws generalizing acc with
  | nil =>
    by_cases h : acc.isEmpty
    · simp_all [wordChunksAux, List.isEmpty_iff]
    · simp [wordChunksAux, h]
  | cons w ws ih =>
    by_cases h : m ≤ acc.length + 1 <;> simp [wordChunksAux, h, ih]

theorem mem_of_mem_wordChunksAux (m : ℕ) (acc ws c : List String) (x : String)
    (hc : c ∈ wordChunksAux m acc ws) (hx : x ∈ c) : x ∈ acc ++ ws := by
  rw [← wordChunksAux_flatten m acc ws]
  exact List.mem_flatten.mpr ⟨c, hc, hx⟩

theorem wordChunksAux_sizes (m : ℕ) :
    ∀ acc ws c, acc.length < m → c ∈ wordChunksAux m acc ws →
      c ≠ [] ∧ c.length ≤ m := by
  intro acc ws
  induction ws generalizing acc with
  | nil =>
    intro c hacc hc
    by_cases h : acc.isEmpty
    · simp [wordChunksAux, h] at hc
    · simp [wordChunksAux, h] at hc
      subst hc
      exact ⟨fun hnil => by simp [hnil] at h, le_of_lt hacc⟩
  | cons w ws ih =>
    intro c hacc hc
    by_cases h : m ≤ acc.length + 1
    · simp only [wordChunksAux, List.length_append, List.length_singleton,
        if_pos h] at hc
      rcases List.mem_cons.mp hc with h1 | h1
      · subst h1
        refine ⟨by simp, ?_⟩
        simp only [List.length_append, List.length_singleton]
        omega
      · exact ih [] c (by simp only [List.length_nil]; omega) h1
    · simp only [wordChunksAux, List.length_append, List.length_singleton,
        if_neg h] at hc
      exact ih (acc ++ [w]) c (by simp; omega) hc

theorem wordChunksAux_dropLast_sizes (m : ℕ) :
    ∀ acc ws c, acc.length < m → c ∈ (wordChunksAux m acc ws).dropLast →
      c.length = m := by
  intro acc ws
  induction ws generalizing acc with
  | nil =>
    intro c hacc hc
    by_cases h : acc.isEmpty <;> simp [wordChunksAux, h] at hc
  | cons w ws ih =>
    intro c hacc hc
    by_cases h : m ≤ acc.length + 1
    · simp only [wordChunksAux, List.length_append, List.length_singleton,
        if_pos h] at hc
      cases hr : wordChunksAux m [] ws with
      | nil => rw [hr] at hc; simp at hc
      | cons d ds =>
        rw [hr, List.dropLast_cons₂] at hc
        rcases List.mem_cons.mp hc with h1 | h1
        · subst h1
          simp only [List.length_append, List.length_singleton]
          omega
        · exact ih [] c (by simp only [List.length_nil]; omega) (by rw [hr]; exact h1)
    · simp only [wordChunksAux, List.length_append, List.length_singleton,
        if_neg h] at hc
      exact ih (acc ++ [w]) c (by simp; omega) hc

/-! ## Properties of `pySplit` words and the join/split round trip -/

theorem mk_data (s : String) : String.mk s.data = s := by
  cases s
  rfl

theorem mem_splitOnP_not {α : Type} (p : α → Bool) :
    ∀ (l : List α) w, w ∈ l.splitOnP p → ∀ x ∈ w, ¬ p x := by
  intro l
  induction l with
  | nil =>
    intro w hw x hx
    rw [List.splitOnP_nil, List.mem_singleton] at hw
    subst hw
    cases hx
  | cons a l ih =>
    intro w hw x hx
    rw [List.splitOnP_cons] at hw
    by_cases hpa : p a
    · rw [if_pos hpa, List.mem_cons] at hw
      rcases hw with h1 | h1
      · subst h1; cases hx
      · exact ih w h1 x hx
    · rw [if_neg hpa] at hw
      cases hsp : l.splitOnP p with
      | nil => exact absurd hsp (List.splitOnP_ne_nil p l)
      | cons d ds =>
        rw [hsp, List.modifyHead_cons, List.mem_cons] at hw
        rcases hw with h1 | h1
        · subst h1
          rcases List.mem_cons.mp hx with h2 | h2
          · subst h2; exact hpa
          · exact ih d (by rw [hsp]; exact List.mem_cons_self d ds) x h2
        · exact ih w (by rw [hsp]; exact List.mem_cons_of_mem d h1) x hx

theorem pySplit_word_props (s : String) (w : String) (hw : w ∈ pySplit s) :
    w.data ≠ [] ∧ ∀ c ∈ w.data, ¬ c.isWhitespace := by
  rcases List.mem_map.mp hw with ⟨l, hl, hmk⟩
  rcases List.mem_filter.mp hl with ⟨hsp, hne⟩
  have hdata : w.data = l := by rw [← hmk]
  constructor
  · rw [hdata]
    intro hnil
    subst hnil
    simp at hne
  · intro c hc
    exact mem_splitOnP_not _ s.data l hsp c (by rwa [hdata] at hc)

theorem intercalate_go_data (s : String) :
    ∀ (l : List String) (acc : String),
      (String.intercalate.go acc s l).data =
        acc.data ++ l.flatMap fun w => s.data ++ w.data := by
  intro l
  induction l with
  | nil => intro acc; simp [String.intercalate.go]
  | cons a as ih =>
    intro acc
    rw [String.intercalate.go, ih]
    simp

theorem joinWords_data_cons (a : String) (as : List String) :
    (joinWords (a :: as)).data = a.data ++ as.flatMap fun w => ' ' :: w.data := by
  show (String.intercalate.go a " " as).data = _
  rw [intercalate_go_data]
  rfl

theorem pySplit_joinWords :
    ∀ (ws : List String), (∀ w ∈ ws, w.data ≠ []) →
      (∀ w ∈ ws, ∀ c ∈ w.data, ¬ c.isWhitespace) →
      pySplit (joinWords ws) = ws := by
  intro ws
  induction ws with
  | nil => intro _ _; decide
  | cons a as ih =>
    intro h1 h2
    cases as with
    | nil =>
      have hclean : ∀ x ∈ a.data, ¬ (fun c => c.isWhitespace) x = true :=
        fun x hx => h2 a (by simp) x hx
      unfold pySplit wordsOfData
      rw [joinWords_data_cons]
      simp only [List.flatMap_nil, List.append_nil]
      rw [List.splitOnP_eq_single _ _ hclean]
      have hne : a.data.isEmpty = false := by
        simp [List.isEmpty_iff]
        exact h1 a (by simp)
      simp [hne, mk_data]
    | cons b bs =>
      have hdata : (joinWords (a :: b :: bs)).data =
          a.data ++ ' ' :: (joinWords (b :: bs)).data := by
        rw [joinWords_data_cons, joinWords_data_cons]
        simp
      have hclean : ∀ x ∈ a.data, ¬ (fun c => c.isWhitespace) x = true :=
        fun x hx => h2 a (by simp) x hx
      unfold pySplit wordsOfData
      rw [hdata, List.splitOnP_first _ _ hclean ' ' (by decide)]
      have hne : a.data.isEmpty = false := by
        simp [List.isEmpty_iff]
        exact h1 a (by simp)
      rw [List.filter_cons, hne]
      simp only [Bool.not_false, if_pos]
      rw [List.map_cons, mk_data]
      have ihr : pySplit (joinWords (b :: bs)) = b :: bs :=
        ih (fun w hw => h1 w (List.mem_cons_of_mem a hw))
          (fun w hw => h2 w (List.mem_cons_of_mem a hw))
      unfold pySplit wordsOfData at ihr
      rw [ihr]

/-- Splitting a chunk built by the chunk loop recovers exactly its word
list: the words came from `pySplit text`, so they are non-empty and
whitespace-free. -/
theorem pySplit_joinWords_chunk (text : String) (m : ℕ) (c : List String)
    (hc : c ∈ wordChunksAux m [] (pySplit text)) :
    pySplit (joinWords c) = c := by
  apply pySplit_joinWords
  · intro w hw
    have hmem : w ∈ ([] : List String) ++ pySplit text :=
      mem_of_mem_wordChunksAux m [] (pySplit text) c w hc hw
    exact (pySplit_word_props text w (by simpa using hmem)).1
  · intro w hw ch hch
    have hmem : w ∈ ([] : List String) ++ pySplit text :=
      mem_of_mem_wordChunksAux m [] (pySplit text) c w hc hw
    exact (pySplit_word_props text w (by simpa using hmem)).2 ch hch

/-- **C2.** For every input text and every max words-per-chunk value ≥ 1,
concatenating the word sequences of all chunks returned by `chunk_text`, in
order, reproduces exactly the whitespace-split word sequence of the original
text, in the original order. -/
theorem chunk_text_coverage (text : String) (m : ℕ) (hm : 1 ≤ m) :
    (chunk_text text m).flatMap pySplit = pySplit text := by
  unfold chunk_text
  rw [chunkWordsAux_eq_map]
  rw [List.flatMap_map]
  have hmap : (wordChunksAux m [] (pySplit text)).map (fun c => pySplit (joinWords c))
      = (wordChunksAux m [] (pySplit text)).map id :=
    List.map_congr_left fun c hc => pySplit_joinWords_chunk text m c hc
  rw [List.flatMap_def, hmap, List.map_id]
  exact wordChunksAux_flatten m [] (pySplit text)

/-- A chunk produced by the loop is a non-empty string (its first word is a
non-empty whitespace-free word of the original text). -/
theorem chunk_ne_empty (text : String) (m : ℕ) (c : List String)
    (hc : c ∈ wordChunksAux m [] (pySplit text)) (hne : c ≠ []) :
    joinWords c ≠ "" := by
  cases c with
  | nil => exact absurd rfl hne
  | cons a as =>
    intro habs
    have hdata := joinWords_data_cons a as
    rw [habs] at hdata
    have hamem : a ∈ ([] : List String) ++ pySplit text :=
      mem_of_mem_wordChunksAux m [] (pySplit text) (a :: as) a hc (by simp)
    have ha := (pySplit_word_props text a (by simpa using hamem)).1
    have : a.data = [] ∧ (as.flatMap fun w => ' ' :: w.data) = [] := by
      constructor
      · cases hd : a.data with
        | nil => rfl
        | cons x xs => rw [hd] at hdata; simp at hdata
      · cases hfm : as.flatMap fun w => ' ' :: w.data with
        | nil => rfl
        | cons x xs => rw [hfm] at hdata; simp at hdata
    exact ha this.1

/-- **C7.** For every input text and every max words-per-chunk value ≥ 1,
every passage returned by `chunk_text` is non-empty (never empty or
whitespace-only) and contains at most the maximum number of words; and a text
of exactly 1000 words with maximum 500 yields exactly 2 chunks of 500 words
each. -/
theorem chunk_text_nonempty_bounded :
    (∀ (text : String) (m : ℕ), 1 ≤ m → ∀ c ∈ chunk_text text m,
        c ≠ "" ∧ pySplit c ≠ [] ∧ (pySplit c).length ≤ m) ∧
    (∀ text : String, (pySplit text).length = 1000 →
        (chunk_text text 500).length = 2 ∧
        ∀ c ∈ chunk_text text 500, (pySplit c).length = 500) := by
  constructor
  · intro text m hm c hc
    rw [chunk_text, chunkWordsAux_eq_map] at hc
    rcases List.mem_map.mp hc with ⟨wc, hwc, hjoin⟩
    have hsz := wordChunksAux_sizes m [] (pySplit text) wc
      (by simpa using hm) hwc
    have hrt := pySplit_joinWords_chunk text m wc hwc
    subst hjoin
    refine ⟨chunk_ne_empty text m wc hwc hsz.1, ?_, ?_⟩
    · rw [hrt]; exact hsz.1
    · rw [hrt]; exact hsz.2
  · intro text hlen
    have h500 : (0 : ℕ) < 500 := by norm_num
    set ws := pySplit text with hws
    set wcs := wordChunksAux 500 [] ws with hwcs
    have hflat : wcs.flatten = ws := by
      simpa using wordChunksAux_flatten 500 [] ws
    have hne : wcs ≠ [] := by
      intro habs
      rw [habs] at hflat
      rw [← hflat] at hlen
      simp at hlen
    have hsum : (wcs.map List.length).sum = 1000 := by
      rw [← List.length_flatten, hflat, hlen]
    have hdecomp := List.dropLast_append_getLast hne
    have hlast_mem : wcs.getLast hne ∈ wcs := List.getLast_mem hne
    have hlast := wordChunksAux_sizes 500 [] ws (wcs.getLast hne)
      (by simpa using h500) hlast_mem
    have hlast_len : 1 ≤ (wcs.getLast hne).length ∧ (wcs.getLast hne).length ≤ 500 :=
      ⟨List.length_pos.mpr hlast.1, hlast.2⟩
    have hdl : ∀ c ∈ wcs.dropLast, c.length = 500 := fun c hc =>
      wordChunksAux_dropLast_sizes 500 [] ws c (by simpa using h500) hc
    have hdlsum : (wcs.dropLast.map List.length).sum = wcs.dropLast.length * 500 := by
      have hrep : wcs.dropLast.map List.length
          = List.replicate wcs.dropLast.length 500 := by
        rw [List.eq_replicate_iff]
        refine ⟨by simp, ?_⟩
        intro b hb
        rcases List.mem_map.mp hb with ⟨c, hc, hcb⟩
        rw [← hcb]
        exact hdl c hc
      rw [hrep, List.sum_replicate, smul_eq_mul]
    have hsplit : (wcs.dropLast.map List.length).sum + (wcs.getLast hne).length = 1000 := by
      have h1 : ((wcs.dropLast ++ [wcs.getLast hne]).map List.length).sum = 1000 := by
        rw [hdecomp]; exact hsum
      simpa using h1
    have hlen2 : wcs.dropLast.length = 1 := by omega
    have hcount : wcs.length = 2 := by
      have := List.length_dropLast wcs
      have hlp : 0 < wcs.length := List.length_pos.mpr hne
      omega
    constructor
    · rw [chunk_text, chunkWordsAux_eq_map, List.length_map, ← hws, ← hwcs, hcount]
    · intro c hc
      rw [chunk_text, chunkWordsAux_eq_map, ← hws, ← hwcs] at hc
      rcases List.mem_map.mp hc with ⟨wc, hwc, hjoin⟩
      have hrt := pySplit_joinWords_chunk text 500 wc (by rw [← hws]; exact hwc)
      subst hjoin
      rw [hrt]
      have hwc' : wc ∈ wcs.dropLast ++ [wcs.getLast hne] := by
        rw [hdecomp]; exact hwc
      rcases List.mem_append.mp hwc' with h1 | h1
      · exact hdl wc h1
      · have : wc = wcs.getLast hne := by simpa using h1
        rw [this]
        omega

/-! ## Normalization (C4) -/

theorem sumSq_nonneg (v : List ℝ) : 0 ≤ (v.map fun x => x ^ 2).sum := by
  apply List.sum_nonneg
  intro x hx
  rcases List.mem_map.mp hx with ⟨y, _, hy⟩
  rw [← hy]
  positivity

theorem sumSq_eq_zero (v : List ℝ) (h : (v.map fun x => x ^ 2).sum = 0) :
    ∀ x ∈ v, x = 0 := by
  induction v with
  | nil => simp
  | cons a v ih =>
    simp only [List.map_cons, List.sum_cons] at h
    have ha : 0 ≤ a ^ 2 := sq_nonneg a
    have hv := sumSq_nonneg v
    have h1 : a ^ 2 = 0 := by linarith
    have h2 : (v.map fun x => x ^ 2).sum = 0 := by linarith
    intro x hx
    rcases List.mem_cons.mp hx with h3 | h3
    · subst h3; exact sq_eq_zero_iff.mp h1
    · exact ih h2 x h3

/-- **C4.** After the normalization performed inside `prepare_doc` (for every
stored passage row) and inside `retrieve_similar_chunks` (for the query
vector), every vector whose original L2 norm is nonzero has unit L2 norm, and
every vector whose original L2 norm is exactly zero remains exactly the
all-zero vector (it is divided by 1, never by 0). -/
theorem normalizeRow_unit_or_zero (v : List ℝ) :
    (l2norm v ≠ 0 → l2norm (normalizeRow v) = 1) ∧
    (l2norm v = 0 → normalizeRow v = v ∧ ∀ x ∈ v, x = 0) := by
  constructor
  · intro hn
    have hpos : 0 < l2norm v := (Real.sqrt_nonneg _).lt_of_ne (Ne.symm hn)
    rw [normalizeRow, if_neg hn]
    have hmap : (List.map (fun x => x / l2norm v) v).map (fun x => x ^ 2)
        = v.map fun x => x ^ 2 * (l2norm v ^ 2)⁻¹ := by
      rw [List.map_map]
      apply List.map_congr_left
      intro x _
      rw [Function.comp_apply, div_pow, div_eq_mul_inv]
    rw [show l2norm (List.map (fun x => x / l2norm v) v)
        = Real.sqrt (((List.map (fun x => x / l2norm v) v).map fun x => x ^ 2).sum)
        from rfl]
    rw [hmap, List.sum_map_mul_right, ← div_eq_mul_inv,
      Real.sqrt_div (sumSq_nonneg v), Real.sqrt_sq hpos.le]
    rw [show Real.sqrt (v.map fun x => x ^ 2).sum = l2norm v from rfl]
    exact div_self hn
  · intro hn
    have hsum : (v.map fun x => x ^ 2).sum = 0 :=
      le_antisymm (Real.sqrt_eq_zero'.mp hn) (sumSq_nonneg v)
    refine ⟨?_, sumSq_eq_zero v hsum⟩
    rw [normalizeRow, if_pos hn]
    have : (fun x : ℝ => x / 1) = id := by funext x; simp
    rw [this, List.map_id]

/-- Witness for C4 at the concrete vector `[3, 4]` (norm 5). -/
theorem normalizeRow_unit_or_zero_witness :
    l2norm [(3 : ℝ), 4] ≠ 0 ∧ l2norm (normalizeRow [(3 : ℝ), 4]) = 1 := by
  have h : l2norm [(3 : ℝ), 4] ≠ 0 := by
    unfold l2norm
    rw [Real.sqrt_ne_zero']
    simp only [List.map_cons, List.map_nil, List.sum_cons, List.sum_nil]
    norm_num
  exact ⟨h, (normalizeRow_unit_or_zero [(3 : ℝ), 4]).1 h⟩

/-- **C9.** For every input text and every max words-per-chunk value m ≥ 1,
every chunk returned by `chunk_text` except possibly the last contains
exactly m words: the loop emits a chunk precisely when the buffer reaches m,
so only the final chunk can be shorter. -/
theorem chunk_text_dropLast_full (text : String) (m : ℕ) (hm : 1 ≤ m) :
    ∀ c ∈ (chunk_text text m).dropLast, (pySplit c).length = m := by
  intro c hc
  rw [chunk_text, chunkWordsAux_eq_map, ← List.map_dropLast] at hc
  rcases List.mem_map.mp hc with ⟨wc, hwc, hjoin⟩
  have hwc_mem : wc ∈ wordChunksAux m [] (pySplit text) :=
    (List.dropLast_sublist _).mem hwc
  have hrt := pySplit_joinWords_chunk text m wc hwc_mem
  subst hjoin
  rw [hrt]
  exact wordChunksAux_dropLast_sizes m [] (pySplit text) wc (by simpa using hm) hwc

/-! ## Pipeline state-machine facts (C1, C5, C6) -/

/-- On every failing path, `prepare_doc` never assigns `self.nn_model`. -/
theorem prepare_doc_failed_nn_model (encode : List String → Option (List (List ℝ)))
    (extracted : Option String) (s : RAGPipeline)
    (h : (prepare_doc encode extracted s).1 ≠ none) :
    (prepare_doc encode extracted s).2.nn_model = s.nn_model := by
  cases extracted with
  | none => rfl
  | some raw =>
    by_cases hws : raw.data.all fun c => c.isWhitespace
    · simp [prepare_doc, hws]
    · by_cases hch : (chunk_text raw 500).isEmpty
      · simp [prepare_doc, hws, hch]
      · cases henc : encode (chunk_text raw 500) with
        | none => simp [prepare_doc, hws, hch, henc]
        | some emb =>
          by_cases hemb : emb.isEmpty
          · simp [prepare_doc, hws, hch, henc, hemb]
          · exfalso
            apply h
            simp [prepare_doc, hws, hch, henc, hemb]

theorem runPrepares_failed_nn_model (attempts : List PrepareAttempt)
    (s : RAGPipeline) (h : AllPreparesFailed attempts s) :
    (runPrepares attempts s).nn_model = s.nn_model := by
  induction h with
  | nil s => rfl
  | cons a as s hfail _ ih =>
    rw [show runPrepares (a :: as) s
        = runPrepares as (prepare_doc a.encode a.extracted s).2 from rfl]
    rw [ih, prepare_doc_failed_nn_model _ _ _ hfail]

/-- `retrieve_similar_chunks` raises "not prepared" whenever `nn_model` is
still `None`. -/
theorem retrieve_nn_none (encode1 : String → List ℝ) (s : RAGPipeline)
    (h : s.nn_model = none) (q : String) (top_k : ℤ) :
    retrieve_similar_chunks encode1 s q top_k = .error .notPrepared := by
  cases hemb : s.embeddings <;> simp [retrieve_similar_chunks, h, hemb]

/-- **C5.** For every `RAGPipeline` instance on which no `prepare_doc` call
has ever succeeded (any sequence of failing calls starting from
`__init__`), every call to `retrieve_similar_chunks` (and hence `query_doc`)
fails with the "not prepared" error and returns no passages. -/
theorem retrieve_unprepared_fails (attempts : List PrepareAttempt)
    (h : AllPreparesFailed attempts initPipeline) (encode1 : String → List ℝ)
    (q : String) (top_k : ℤ) :
    retrieve_similar_chunks encode1 (runPrepares attempts initPipeline) q top_k
      = .error .notPrepared ∧
    query_doc encode1 (runPrepares attempts initPipeline) q
      = .error .notPrepared := by
  have hnn : (runPrepares attempts initPipeline).nn_model = none :=
    runPrepares_failed_nn_model attempts initPipeline h
  refine ⟨retrieve_nn_none encode1 _ hnn q top_k, ?_⟩
  rw [query_doc, retrieve_nn_none encode1 _ hnn q 3]

/-- Witness for C5: one `prepare_doc` call whose extraction raised, then a
retrieve and a `query_doc`. -/
theorem retrieve_unprepared_fails_witness :
    retrieve_similar_chunks (fun _ => [])
        (runPrepares [{ encode := fun _ => none, extracted := none }] initPipeline)
        "q" 3
      = .error .notPrepared ∧
    query_doc (fun _ => [])
        (runPrepares [{ encode := fun _ => none, extracted := none }] initPipeline)
        "q"
      = .error .notPrepared :=
  retrieve_unprepared_fails _
    (AllPreparesFailed.cons _ _ _ (by simp [prepare_doc]) (AllPreparesFailed.nil _))
    (fun _ => []) "q" 3

/-- **C6.** For every fitted index and every requested neighbor count
`top_k ≤ 0`, `retrieve_similar_chunks` fails with the invalid-input error
(scikit-learn rejects a non-positive `n_neighbors`); it never silently
returns an empty result list. -/
theorem retrieve_nonpositive_k_invalid (encode1 : String → List ℝ)
    (s : RAGPipeline) (q : String) (top_k : ℤ) (hfit : Fitted s)
    (hk : top_k ≤ 0) :
    retrieve_similar_chunks encode1 s q top_k = .error .invalidInput := by
  rcases hfit with ⟨fitted, hnn, hemb, _, hne⟩
  cases hembv : s.embeddings with
  | none => exact absurd hembv hemb
  | some emb =>
    have hkk : min top_k (s.text_chunks.length : ℤ) ≤ 0 :=
      le_trans (min_le_left _ _) hk
    simp [retrieve_similar_chunks, hnn, hembv, kneighborsIdx, hkk,
      List.isEmpty_iff, hne]

/-! ## Retrieval count and ordering (C3) -/

theorem distRank_total (d : ℕ → ℝ) : ∀ i j, distRank d i j ∨ distRank d j i := by
  intro i j
  rcases lt_trichotomy (d i) (d j) with h | h | h
  · exact Or.inl (Or.inl h)
  · rcases le_total i j with hij | hij
    · exact Or.inl (Or.inr ⟨h, hij⟩)
    · exact Or.inr (Or.inr ⟨h.symm, hij⟩)
  · exact Or.inr (Or.inl h)

theorem distRank_trans (d : ℕ → ℝ) :
    ∀ i j k, distRank d i j → distRank d j k → distRank d i k := by
  intro i j k h1 h2
  rcases h1 with h1 | ⟨h1e, h1le⟩
  · rcases h2 with h2 | ⟨h2e, _⟩
    · exact Or.inl (h1.trans h2)
    · exact Or.inl (h2e ▸ h1)
  · rcases h2 with h2 | ⟨h2e, h2le⟩
    · exact Or.inl (lt_of_le_of_lt (le_of_eq h1e) h2)
    · exact Or.inr ⟨h1e.trans h2e, h1le.trans h2le⟩

theorem distRank_le (d : ℕ → ℝ) (i j : ℕ) (h : distRank d i j) : d i ≤ d j := by
  rcases h with h | ⟨h, _⟩
  · exact le_of_lt h
  · exact le_of_eq h

theorem argsortDist_perm (d : ℕ → ℝ) (N : ℕ) :
    (argsortDist d N).Perm (List.range N) :=
  List.perm_insertionSort _ _

theorem argsortDist_length (d : ℕ → ℝ) (N : ℕ) : (argsortDist d N).length = N := by
  rw [(argsortDist_perm d N).length_eq, List.length_range]

theorem mem_argsortDist (d : ℕ → ℝ) (N : ℕ) (i : ℕ) :
    i ∈ argsortDist d N ↔ i < N := by
  rw [(argsortDist_perm d N).mem_iff, List.mem_range]

theorem argsortDist_sorted (d : ℕ → ℝ) (N : ℕ) :
    (argsortDist d N).Sorted (distRank d) := by
  haveI : IsTotal ℕ (distRank d) := ⟨distRank_total d⟩
  haveI : IsTrans ℕ (distRank d) := ⟨fun i j k => distRank_trans d i j k⟩
  exact List.sorted_insertionSort _ _

/-- `retrieve_similar_chunks` on an explicitly fitted state, when the
neighbor count is valid and the index bounds check passes, returns the
clamped prefix of the distance-sorted index list mapped to passages. -/
theorem retrieve_fitted_eq (encode1 : String → List ℝ) (chunks : List String)
    (fitted emb : List (List ℝ)) (dim : Option ℕ) (q : String) (top_k : ℤ)
    (hne : chunks ≠ [])
    (hk0 : ¬ min top_k (chunks.length : ℤ) ≤ 0)
    (hkN : ¬ (fitted.length : ℤ) < min top_k (chunks.length : ℤ))
    (hidx : ∀ i ∈ (argsortDist
        (fun i => cosDist (normalizeRow (encode1 q)) (fitted.getD i []))
        fitted.length).take (min top_k (chunks.length : ℤ)).toNat,
      i < chunks.length) :
    retrieve_similar_chunks encode1
        { text_chunks := chunks, nn_model := some fitted,
          embeddings := some emb, embedding_dim := dim } q top_k
      = .ok (((argsortDist
          (fun i => cosDist (normalizeRow (encode1 q)) (fitted.getD i []))
          fitted.length).take (min top_k (chunks.length : ℤ)).toNat).map
            fun i => chunks.getD i "") := by
  unfold retrieve_similar_chunks
  simp only []
  rw [if_neg (by simp [hne])]
  unfold kneighborsIdx
  rw [if_neg hk0, if_neg hkN]
  simp only []
  rw [if_pos]
  rw [List.all_eq_true]
  intro i hi
  simpa using hidx i hi

/-- **C3.** For every fitted index holding N ≥ 1 passages and every requested
neighbor count `top_k ≥ 1`, `retrieve_similar_chunks` returns exactly
`min(top_k, N)` passages — never fewer due to an error and never more — and
the underlying indices are ordered by ascending cosine distance to the
(normalized) query. -/
theorem retrieve_count_and_order (encode1 : String → List ℝ) (s : RAGPipeline)
    (q : String) (top_k : ℤ) (hfit : Fitted s) (hk : 1 ≤ top_k) :
    ∃ (fitted : List (List ℝ)) (idxs : List ℕ),
      s.nn_model = some fitted ∧
      retrieve_similar_chunks encode1 s q top_k
        = .ok (idxs.map fun i => s.text_chunks.getD i "") ∧
      (idxs.length : ℤ) = min top_k (s.text_chunks.length : ℤ) ∧
      idxs.Pairwise (fun i j =>
        cosDist (normalizeRow (encode1 q)) (fitted.getD i [])
          ≤ cosDist (normalizeRow (encode1 q)) (fitted.getD j [])) ∧
      ∀ i ∈ idxs, i < s.text_chunks.length := by
  obtain ⟨chunks, nn, embo, dim⟩ := s
  rcases hfit with ⟨fitted, hnn, hembne, hlen, hne⟩
  simp only at hnn hembne hlen hne
  subst hnn
  cases embo with
  | none => exact absurd rfl hembne
  | some emb =>
  set d : ℕ → ℝ := fun i => cosDist (normalizeRow (encode1 q)) (fitted.getD i [])
    with hd
  have hN1 : 1 ≤ chunks.length := List.length_pos.mpr hne
  have hk0 : ¬ min top_k (chunks.length : ℤ) ≤ 0 := by
    have h1 : (1 : ℤ) ≤ min top_k (chunks.length : ℤ) :=
      le_min hk (by exact_mod_cast hN1)
    omega
  have hkN : ¬ (fitted.length : ℤ) < min top_k (chunks.length : ℤ) := by
    have := min_le_right top_k (chunks.length : ℤ)
    rw [hlen]
    omega
  set idxs := (argsortDist d fitted.length).take
    (min top_k (chunks.length : ℤ)).toNat with hidxs
  have hmem : ∀ i ∈ idxs, i < chunks.length := by
    intro i hi
    have h1 : i ∈ argsortDist d fitted.length :=
      (List.take_sublist _ _).mem hi
    rw [mem_argsortDist, hlen] at h1
    exact h1
  refine ⟨fitted, idxs, rfl, ?_, ?_, ?_, hmem⟩
  · exact retrieve_fitted_eq encode1 chunks fitted emb dim q top_k hne hk0 hkN hmem
  · dsimp only
    rw [hidxs, List.length_take, argsortDist_length]
    omega
  · have hsorted := argsortDist_sorted d fitted.length
    have hsub : idxs.Pairwise (distRank d) :=
      hsorted.sublist (List.take_sublist _ _)
    exact hsub.imp fun h => distRank_le d _ _ h

/-- Witness for C3: the fitted two-passage index of `fittedExample` queried
with `top_k = 5`. -/
theorem retrieve_count_and_order_witness :
    Fitted fittedExample ∧ (1 : ℤ) ≤ 5 ∧
    (∃ (fitted : List (List ℝ)) (idxs : List ℕ),
      fittedExample.nn_model = some fitted ∧
      retrieve_similar_chunks (fun _ => [(1 : ℝ), 0]) fittedExample "q" 5
        = .ok (idxs.map fun i => fittedExample.text_chunks.getD i "") ∧
      (idxs.length : ℤ) = min 5 (fittedExample.text_chunks.length : ℤ) ∧
      idxs.Pairwise (fun i j =>
        cosDist (normalizeRow [(1 : ℝ), 0]) (fitted.getD i [])
          ≤ cosDist (normalizeRow [(1 : ℝ), 0]) (fitted.getD j [])) ∧
      ∀ i ∈ idxs, i < fittedExample.text_chunks.length) := by
  have hfit : Fitted fittedExample :=
    ⟨[[(1 : ℝ), 0], [0, 1]], rfl, by simp [fittedExample], rfl,
      by simp [fittedExample]⟩
  exact ⟨hfit, by norm_num,
    retrieve_count_and_order (fun _ => [(1 : ℝ), 0]) fittedExample "q" 5 hfit
      (by norm_num)⟩

/-- Witness for C6: a fitted single-passage index queried with `top_k = 0`. -/
theorem retrieve_nonpositive_k_invalid_witness :
    retrieve_similar_chunks (fun _ => [])
      { text_chunks := ["a"], nn_model := some [[(1 : ℝ), 0]],
        embeddings := some [[(1 : ℝ), 0]], embedding_dim := some 2 } "q" 0
      = .error .invalidInput :=
  retrieve_nonpositive_k_invalid _ _ _ _
    ⟨[[(1 : ℝ), 0]], rfl, by simp, by simp, by simp⟩ (by norm_num)

/-! ## `prepare_doc` failure behaviour (C1) -/

theorem wordsOfData_ne_nil (l : List Char)
    (h : ¬ l.all fun c => c.isWhitespace) :
    (l.splitOnP fun c => c.isWhitespace).filter (fun w => !w.isEmpty) ≠ [] := by
  induction l with
  | nil => simp at h
  | cons a t ih =>
    by_cases hpa : a.isWhitespace
    · have ht : ¬ t.all fun c => c.isWhitespace := by
        intro habs
        exact h (by simp [List.all_cons, hpa, habs])
      rw [List.splitOnP_cons, if_pos hpa, List.filter_cons]
      simpa using ih ht
    · rw [List.splitOnP_cons, if_neg hpa]
      cases hsp : t.splitOnP (fun c => c.isWhitespace) with
      | nil => exact absurd hsp (List.splitOnP_ne_nil _ t)
      | cons d ds =>
        rw [List.modifyHead_cons, List.filter_cons]
        simp

theorem pySplit_ne_nil (s : String)
    (h : ¬ s.data.all fun c => c.isWhitespace) : pySplit s ≠ [] := by
  rw [pySplit, wordsOfData]
  intro habs
  rw [List.map_eq_nil_iff] at habs
  exact wordsOfData_ne_nil s.data h habs

theorem chunk_text_ne_nil (raw : String)
    (h : ¬ raw.data.all fun c => c.isWhitespace) : chunk_text raw 500 ≠ [] := by
  rw [chunk_text, chunkWordsAux_eq_map]
  intro habs
  rw [List.map_eq_nil_iff] at habs
  have hflat := wordChunksAux_flatten 500 [] (pySplit raw)
  rw [habs] at hflat
  exact pySplit_ne_nil raw h (by simpa using hflat.symm)

/-- **C1 (amended).** What a failing `prepare_doc` actually does to the
instance state: an extraction-stage failure (fitz raised, or no usable text)
leaves the state unchanged; but a failure at the embedding stage happens
AFTER `self.text_chunks` has been overwritten with the new document's chunks,
so the state is observably changed (a subsequent retrieve serves the new
chunk list against the old fitted index).  If no `prepare_doc` ever
succeeded, retrieval on the initial state still fails with the not-prepared
error. -/
theorem prepare_doc_failure_effect
    (encode : List String → Option (List (List ℝ))) (s : RAGPipeline) :
    (prepare_doc encode none s = (some .extractionError, s)) ∧
    (∀ raw : String, (raw.data.all fun c => c.isWhitespace) →
        prepare_doc encode (some raw) s = (some .extractionEmpty, s)) ∧
    (∀ raw : String, ¬ (raw.data.all fun c => c.isWhitespace) →
        encode (chunk_text raw 500) = none →
        prepare_doc encode (some raw) s
          = (some .embeddingFailed,
             { s with text_chunks := chunk_text raw 500 })) ∧
    (∀ raw : String, ¬ (raw.data.all fun c => c.isWhitespace) →
        encode (chunk_text raw 500) = some [] →
        prepare_doc encode (some raw) s
          = (some .embeddingEmpty,
             { s with text_chunks := chunk_text raw 500,
                      embeddings := some [] })) ∧
    (∀ (encode1 : String → List ℝ) (q : String) (top_k : ℤ),
        retrieve_similar_chunks encode1 initPipeline q top_k
          = .error .notPrepared) := by
  refine ⟨rfl, ?_, ?_, ?_, ?_⟩
  · intro raw hws
    simp [prepare_doc, hws]
  · intro raw hws henc
    have hch : ¬ (chunk_text raw 500).isEmpty := by
      simp [List.isEmpty_iff, chunk_text_ne_nil raw hws]
    simp [prepare_doc, hws, hch, henc]
  · intro raw hws henc
    have hch : ¬ (chunk_text raw 500).isEmpty := by
      simp [List.isEmpty_iff, chunk_text_ne_nil raw hws]
    simp [prepare_doc, hws, hch, henc]
  · intro encode1 q top_k
    exact retrieve_nn_none encode1 initPipeline rfl q top_k

/-- Witness for the amended C1: concrete failing `prepare_doc` calls at each
stage, starting from the freshly initialized pipeline. -/
theorem prepare_doc_failure_effect_witness :
    (prepare_doc (fun _ => none) none initPipeline
      = (some .extractionError, initPipeline)) ∧
    (prepare_doc (fun _ => none) (some "   ") initPipeline
      = (some .extractionEmpty, initPipeline)) ∧
    (prepare_doc (fun _ => none) (some "bravo") initPipeline
      = (some .embeddingFailed,
         { initPipeline with text_chunks := chunk_text "bravo" 500 })) ∧
    (prepare_doc (fun _ => some []) (some "bravo") initPipeline
      = (some .embeddingEmpty,
         { initPipeline with text_chunks := chunk_text "bravo" 500,
                             embeddings := some [] })) ∧
    retrieve_similar_chunks (fun _ => []) initPipeline "q" 3
      = .error .notPrepared := by
  refine ⟨(prepare_doc_failure_effect (fun _ => none) initPipeline).1,
    (prepare_doc_failure_effect (fun _ => none) initPipeline).2.1 "   " (by decide),
    (prepare_doc_failure_effect (fun _ => none) initPipeline).2.2.1 "bravo"
      (by decide) rfl,
    (prepare_doc_failure_effect (fun _ => some []) initPipeline).2.2.2.1 "bravo"
      (by decide) rfl,
    (prepare_doc_failure_effect (fun _ => none) initPipeline).2.2.2.2
      (fun _ => []) "q" 3⟩

/-- **C1 (counterexample).** The claim "a failed `prepare_doc` leaves the
observable state unchanged" is false: prepare document "alpha" successfully
(the encoder returns `[[1,0]]`), then run a `prepare_doc` of document "bravo"
whose embedding step raises.  The call fails with the embedding error, yet a
subsequent retrieve now returns the NEW document's passage `["bravo"]`
instead of the old `["alpha"]` it returned before the failed call. -/
theorem prepare_doc_not_atomic :
    (prepare_doc (fun _ => some [[(1 : ℝ), 0]]) (some "alpha") initPipeline).1
      = none ∧
    retrieve_similar_chunks (fun _ => [(1 : ℝ), 0])
        (prepare_doc (fun _ => some [[(1 : ℝ), 0]]) (some "alpha")
          initPipeline).2 "q" 1
      = .ok ["alpha"] ∧
    (prepare_doc (fun _ => none) (some "bravo")
        (prepare_doc (fun _ => some [[(1 : ℝ), 0]]) (some "alpha")
          initPipeline).2).1
      = some RagError.embeddingFailed ∧
    retrieve_similar_chunks (fun _ => [(1 : ℝ), 0])
        (prepare_doc (fun _ => none) (some "bravo")
          (prepare_doc (fun _ => some [[(1 : ℝ), 0]]) (some "alpha")
            initPipeline).2).2 "q" 1
      = .ok ["bravo"] := by
  exact ⟨rfl, rfl, rfl, rfl⟩

/-! ## Witnesses for the chunking claims -/

/-- Witness for C2 at the text "cat dog bird" with maximum 2. -/
theorem chunk_text_coverage_witness :
    1 ≤ 2 ∧
    (chunk_text "cat dog bird" 2).flatMap pySplit = pySplit "cat dog bird" :=
  ⟨by decide, chunk_text_coverage "cat dog bird" 2 (by decide)⟩

/-- Witness for C7: the single chunk of "cat dog", and a concrete 1000-word
text (1000 copies of "w") chunked with maximum 500. -/
theorem chunk_text_nonempty_bounded_witness :
    ("cat dog" ≠ "" ∧ pySplit "cat dog" ≠ [] ∧
      (pySplit "cat dog").length ≤ 500) ∧
    ((chunk_text (joinWords (List.replicate 1000 "w")) 500).length = 2 ∧
      ∀ c ∈ chunk_text (joinWords (List.replicate 1000 "w")) 500,
        (pySplit c).length = 500) := by
  constructor
  · exact chunk_text_nonempty_bounded.1 "cat dog" 500 (by decide) "cat dog"
      (by decide)
  · apply chunk_text_nonempty_bounded.2
    have hws : pySplit (joinWords (List.replicate 1000 "w"))
        = List.replicate 1000 "w" := by
      apply pySplit_joinWords
      · intro w hw
        rw [List.eq_of_mem_replicate hw]
        decide
      · intro w hw
        rw [List.eq_of_mem_replicate hw]
        decide
    rw [hws, List.length_replicate]

/-- Witness for C9 at the text "a b c" with maximum 2 (chunks "a b", "c"). -/
theorem chunk_text_dropLast_full_witness :
    1 ≤ 2 ∧ ∀ c ∈ (chunk_text "a b c" 2).dropLast, (pySplit c).length = 2 :=
  ⟨by decide, chunk_text_dropLast_full "a b c" 2 (by decide)⟩

/-! ## Upload path handling (C10) -/

/-- **C10.** The upload endpoint saves the file to, and hands
`rag.prepare_doc`, the path `os.path.join("./data/uploads", filename)` with
the client-supplied filename used verbatim: for any relative filename the
result is the plain concatenation `"./data/uploads/" ++ filename` (so `..`
segments survive), and an absolute filename replaces the upload directory
entirely.  No sanitization occurs anywhere in this repository. -/
theorem upload_path_verbatim (filename : String) :
    (upload_file filename).saved_path = os_path_join "./data/uploads" filename ∧
    (upload_file filename).prepare_doc_arg
      = os_path_join "./data/uploads" filename ∧
    (filename.data.head? ≠ some '/' →
      (upload_file filename).prepare_doc_arg = "./data/uploads/" ++ filename) ∧
    (filename.data.head? = some '/' →
      (upload_file filename).prepare_doc_arg = filename) := by
  refine ⟨rfl, rfl, ?_, ?_⟩
  · intro h
    show os_path_join UPLOAD_FOLDER filename = _
    rw [os_path_join, if_neg (by simp [h]), if_neg (by decide)]
    rfl
  · intro h
    show os_path_join UPLOAD_FOLDER filename = _
    rw [os_path_join, if_pos (by simp [h])]

/-- Witness for C10: a traversal filename is passed through verbatim. -/
theorem upload_path_verbatim_witness :
    ("../secret.pdf").data.head? ≠ some '/' ∧
    (upload_file "../secret.pdf").prepare_doc_arg
      = "./data/uploads/" ++ "../secret.pdf" :=
  ⟨by decide, (upload_path_verbatim "../secret.pdf").2.2.1 (by decide)⟩

end AiAgentRag
